import Mathlib

/-!
Verification of the spike-schedule validation and playback-index subsystem of
`SpikeGeneratorGroup` (src/brian2/input/spikegeneratorgroup.py).

The embedding models times, the timestep `dt` and the period as exact rationals
(the spec describes the arithmetic over the reals; floating-point rounding is
not modelled).  Neuron indices are integers (numpy arrays of signed integers;
the int32 storage width is not modelled).  The two numpy arrays
`self._neuron_index` / `self._spike_time` and the dynamic arrays
`variables['neuron_index']` / `variables['spike_time']` always hold identical
contents (they are assigned together, in `_check_args` and `set_spikes`
respectively, with no failure point in between), so the state carries a single
copy of the schedule.  The sentinel `period = 1e100*second` and a user-supplied
`np.inf` both behave identically to any rational that is `≥ dt` and `≥ 1000`
in every check of `before_run`, so the period is carried as a plain rational
and the `period < np.inf` guard (always true for rational periods) is dropped.
-/

deriving instance DecidableEq for Except

section SpikeGen

attribute [local semireducible] Rat.add Rat.mul Rat.inv Rat.sub Rat.ofScientific

/-- Error taxonomy of the subsystem: `invalidN` is the TypeError of `__init__`
(line 94), the next five are the ValueErrors of `_check_args` (lines 250-262,
in source order), the two period errors are the ValueError / NotImplementedError
of `before_run` (lines 150-169), and `collision` is the ValueError of
`before_run` lines 198-202. -/
inductive Err where
  | invalidN
  | lengthMismatch
  | negativePeriod
  | periodTooSmall
  | negativeTime
  | indexOutOfRange
  | periodSmallerThanDt
  | periodNotMultiple
  | collision
deriving Repr, DecidableEq

/-- Floor of a rational, computed executably (`Int` division here is Euclidean
division, which agrees with flooring for the positive denominator `q.den`). -/
def ratFloor (q : ℚ) : ℤ := q.num / q.den

/-- Truncation toward zero, the semantics of numpy's cast to a signed integer
dtype (the 32-bit wraparound of `np.int32` is not modelled). -/
def int32trunc (q : ℚ) : ℤ := Int.tdiv q.num q.den

/-- Modelled from the spec: the function `timestep` used by `before_run`
(lines 164 and 173-174) is imported from `brian2.core.functions`, which is not
among the sources; spec §4.1 defines it as
`binIndex(time, dt) = floor((time + ε·dt) / dt)` with ε = 1e-3 fixed. -/
def timestep (t dt : ℚ) : ℤ := ratFloor ((t + (1 / 1000) * dt) / dt)

/-- The inline bin computation of `before_run` lines 192-194:
`shift = 1e-3*dt; timebins = np.asarray(np.asarray(self._spike_time + shift)/dt, dtype=np.int32)`. -/
def timebin (t dt : ℚ) : ℤ := int32trunc ((t + (1 / 1000) * dt) / dt)

/-- `np.max` over a nonempty list (the default `d` is returned only for `[]`,
which every use guards against, mirroring the `len(...) and` short circuits). -/
def npMax [LinearOrder α] (d : α) : List α → α
  | [] => d
  | [a] => a
  | a :: b :: l => max a (npMax d (b :: l))

/-- `np.min` over a nonempty list, same conventions as `npMax`. -/
def npMin [LinearOrder α] (d : α) : List α → α
  | [] => d
  | [a] => a
  | a :: b :: l => min a (npMin d (b :: l))

/-- The adjacent-pair scan of `before_run` lines 198: with `bs` the time bins
and `is` the neuron indices (lists of equal length),
`(np.logical_and(np.diff(timebins)==0, np.diff(self._neuron_index)==0)).any()`. -/
def hasCollision : List ℤ → List ℤ → Bool
  | b1 :: b2 :: bs, i1 :: i2 :: is => (b1 == b2 && i1 == i2) || hasCollision (b2 :: bs) (i2 :: is)
  | _, _ => false

/-- The collision detector of `before_run` lines 186-202 applied to a schedule. -/
def collisionFlag (ids : List ℤ) (times : List ℚ) (dt : ℚ) : Bool :=
  hasCollision (times.map (fun τ => timebin τ dt)) ids

/-- The key order of `np.lexsort((indices, times))` on (time, id) pairs:
primarily by time, secondarily by index, ascending. -/
def timeIdLe (a b : ℚ × ℤ) : Prop := a.1 < b.1 ∨ (a.1 = b.1 ∧ a.2 ≤ b.2)

instance : DecidableRel timeIdLe := fun a b => by
  unfold timeIdLe; infer_instance

instance : IsTotal (ℚ × ℤ) timeIdLe := by
  constructor
  intro a b
  rcases lt_trichotomy a.1 b.1 with h | h | h
  · exact Or.inl (Or.inl h)
  · rcases le_total a.2 b.2 with h2 | h2
    · exact Or.inl (Or.inr ⟨h, h2⟩)
    · exact Or.inr (Or.inr ⟨h.symm, h2⟩)
  · exact Or.inr (Or.inl h)

instance : IsTrans (ℚ × ℤ) timeIdLe := by
  constructor
  rintro a b c (hab | ⟨hab, hab2⟩) (hbc | ⟨hbc, hbc2⟩)
  · exact Or.inl (hab.trans hbc)
  · exact Or.inl (hbc ▸ hab)
  · exact Or.inl (hab ▸ hbc)
  · exact Or.inr ⟨hab.trans hbc, hab2.trans hbc2⟩

instance : IsAntisymm (ℚ × ℤ) timeIdLe := by
  constructor
  rintro ⟨a1, a2⟩ ⟨b1, b2⟩ (hab | ⟨hab, hab2⟩) (hba | ⟨hba, hba2⟩)
  · exact absurd (hab.trans hba) (lt_irrefl _)
  · exact absurd (hba ▸ hab) (lt_irrefl _)
  · exact absurd (hab ▸ hba) (lt_irrefl _)
  · simp only [Prod.mk.injEq] at hab ⊢
    exact ⟨hab, le_antisymm hab2 hba2⟩

/-- The sorting step of `_check_args` lines 266-270:
`I = np.lexsort((indices, times)); indices = indices[I]; times = times[I]`
(a stable sort of the (time, id) pairs, primarily by time, secondarily by id). -/
def sortSchedule (indices : List ℤ) (times : List ℚ) : List ℤ × List ℚ :=
  let s := List.insertionSort timeIdLe (times.zip indices)
  (s.map Prod.snd, s.map Prod.fst)

/-- `SpikeGeneratorGroup._check_args` (lines 248-281): the validation checks in
source order, then the sort (skipped when `sorted` is true). -/
def check_args (indices : List ℤ) (times : List ℚ) (period : ℚ) (N : ℕ) (sorted : Bool) :
    Except Err (List ℤ × List ℚ) :=
  if indices.length ≠ times.length then .error .lengthMismatch
  else if period < 0 then .error .negativePeriod
  else if times ≠ [] ∧ period ≤ npMax 0 times then .error .periodTooSmall
  else if times ≠ [] ∧ npMin 0 times < 0 then .error .negativeTime
  else if indices ≠ [] ∧ (npMin 0 indices < 0 ∨ (N : ℤ) ≤ npMax 0 indices) then
    .error .indexOutOfRange
  else if sorted then .ok (indices, times)
  else .ok (sortSchedule indices times)

/-- The mutable state of a `SpikeGeneratorGroup` relevant to this core:
the canonical schedule (`_neuron_index`/`_spike_time`, duplicated into the
`neuron_index`/`spike_time` dynamic arrays with identical contents), the
`spike_number` sequence, the stored `period`, the dirty flag `_spikes_changed`,
the cached `_previous_dt` (`None` before the first successful collision check)
and the playback cursor `_lastindex`. -/
structure GenState where
  N : ℕ
  neuron_index : List ℤ
  spike_time : List ℚ
  spike_number : List ℕ
  period : ℚ
  spikes_changed : Bool
  previous_dt : Option ℚ
  lastindex : ℕ
deriving Repr, DecidableEq

/-- `SpikeGeneratorGroup.set_spikes` (lines 208-246): run `_check_args` against
the existing `N`; a raised error leaves the state untouched (in the source every
raise of `_check_args` happens before its first assignment); on success store
the canonical arrays, the period and `spike_number = np.arange(len(indices))`,
with the dirty flag set by `_check_args`. -/
def set_spikesRun (st : GenState) (indices : List ℤ) (times : List ℚ) (period : ℚ)
    (sorted : Bool) : GenState × Option Err :=
  match check_args indices times period st.N sorted with
  | .error e => (st, some e)
  | .ok (i, t) =>
    ({ st with
        neuron_index := i
        spike_time := t
        spike_number := List.range i.length
        period := period
        spikes_changed := true }, none)

/-- `SpikeGeneratorGroup.__init__` (lines 71-143): reject `N < 1`, run
`_check_args`, and build the initial state (`_previous_dt = None`,
`_lastindex = 0`, dirty).  Non-integral `N` (also a TypeError in the source)
is outside the model since `N` is taken as a natural number. -/
def initSGG (N : ℕ) (indices : List ℤ) (times : List ℚ) (period : ℚ) (sorted : Bool) :
    Except Err GenState :=
  if N < 1 then .error .invalidN
  else
    match check_args indices times period N sorted with
    | .error e => .error e
    | .ok (i, t) =>
      .ok { N := N
            neuron_index := i
            spike_time := t
            spike_number := List.range i.length
            period := period
            spikes_changed := true
            previous_dt := none
            lastindex := 0 }

/-- The period checks of `before_run` lines 149-169 (the `period < np.inf`
guard is dropped, see the module comment): fail if `period < dt`; otherwise,
if `period < 1000`, sample `n_periods = int(1000./period)` multiples and
require `timestep(k*period, dt) % timestep(period, dt) == 0` for every
`k = 0, ..., n_periods - 1`. -/
def periodCheck (period dt : ℚ) : Option Err :=
  if period < dt then some .periodSmallerThanDt
  else if period < 1000 then
    if (List.range (Int.toNat (ratFloor (1000 / period)))).all
        (fun k => timestep ((k : ℚ) * period) dt % timestep period dt == 0) then
      none
    else some .periodNotMultiple
  else none

/-- `in_the_past = np.nonzero(timesteps < current_step)[0]` of `before_run`
line 175: the ascending list of positions whose bin lies strictly before the
bin of the current time. -/
def pastIndices (times : List ℚ) (t dt : ℚ) : List ℕ :=
  (List.range times.length).filter (fun k => decide (timestep (times.getD k 0) dt < timestep t dt))

/-- The recomputed cursor of `before_run` lines 176-184:
`in_the_past[-1] + 1` when some event lies in the past, else `0`. -/
def newCursor (times : List ℚ) (t dt : ℚ) : ℕ :=
  match (pastIndices times t dt).getLast? with
  | some k => k + 1
  | none => 0

/-- The state after the cursor step of `before_run` lines 171-184: when dirty,
`_lastindex` is recomputed; otherwise nothing is touched. -/
def cursorState (st : GenState) (t dt : ℚ) : GenState :=
  if st.spikes_changed = true then { st with lastindex := newCursor st.spike_time t dt }
  else st

/-- `SpikeGeneratorGroup.before_run` (lines 145-204) as a state transformer
returning the state at exit (normal or by exception), the raised error if any,
and whether the ignored-spikes warning was emitted.  Order as in the source:
period checks first, then (if dirty) the cursor recomputation with the warning,
then (if `_previous_dt` is `None`, `dt` changed, or dirty) the collision scan,
whose success stores `_previous_dt = dt` and clears the dirty flag. -/
def before_runRun (st : GenState) (t dt : ℚ) : GenState × Option Err × Bool :=
  match periodCheck st.period dt with
  | some e => (st, some e, false)
  | none =>
    let st1 : GenState := cursorState st t dt
    let warned : Bool := st.spikes_changed && !(pastIndices st.spike_time t dt).isEmpty
    if st1.previous_dt = none ∨ ¬st1.previous_dt = some dt ∨ st1.spikes_changed = true then
      if collisionFlag st1.neuron_index st1.spike_time dt then
        (st1, some .collision, warned)
      else ({ st1 with previous_dt := some dt, spikes_changed := false }, none, warned)
    else (st1, none, warned)

/-- States reachable through the public interface: construction followed by any
sequence of `set_spikes` calls (successful or not) and `before_run` calls. -/
inductive Reachable : GenState → Prop
  | init {N : ℕ} {indices : List ℤ} {times : List ℚ} {period : ℚ} {sorted : Bool} {st : GenState} :
      initSGG N indices times period sorted = .ok st → Reachable st
  | step_set {st st' : GenState} {indices : List ℤ} {times : List ℚ} {period : ℚ}
      {sorted : Bool} {e : Option Err} :
      Reachable st → set_spikesRun st indices times period sorted = (st', e) → Reachable st'
  | step_run {st st' : GenState} {t dt : ℚ} {e : Option Err} {w : Bool} :
      Reachable st → before_runRun st t dt = (st', e, w) → Reachable st'

/-- Example state used to instantiate theorems with hypotheses: an empty
generator over two neurons with the default (sentinel) period. -/
def exampleState : GenState :=
  { N := 2
    neuron_index := []
    spike_time := []
    spike_number := []
    period := 100000
    spikes_changed := true
    previous_dt := none
    lastindex := 0 }

/-! Helper lemmas about the embedded operations. -/

theorem ratFloor_eq_floor (q : ℚ) : ratFloor q = ⌊q⌋ := Rat.floor_def.symm

theorem npMax_mem [LinearOrder α] (d : α) : ∀ l : List α, l ≠ [] → npMax d l ∈ l
  | [], h => absurd rfl h
  | [a], _ => by simp [npMax]
  | a :: b :: l, _ => by
    rw [npMax]
    rcases max_choice a (npMax d (b :: l)) with h | h <;> rw [h]
    · exact List.mem_cons_self a _
    · exact List.mem_cons_of_mem a (npMax_mem d (b :: l) (by simp))

theorem le_npMax [LinearOrder α] (d : α) : ∀ l : List α, ∀ x ∈ l, x ≤ npMax d l
  | [a], x, hx => by
    rw [List.mem_singleton] at hx
    simp [npMax, hx]
  | a :: b :: l, x, hx => by
    rw [npMax]
    rcases List.mem_cons.mp hx with h | h
    · exact h ▸ le_max_left _ _
    · exact (le_npMax d (b :: l) x h).trans (le_max_right _ _)

theorem npMin_mem [LinearOrder α] (d : α) : ∀ l : List α, l ≠ [] → npMin d l ∈ l
  | [], h => absurd rfl h
  | [a], _ => by simp [npMin]
  | a :: b :: l, _ => by
    rw [npMin]
    rcases min_choice a (npMin d (b :: l)) with h | h <;> rw [h]
    · exact List.mem_cons_self a _
    · exact List.mem_cons_of_mem a (npMin_mem d (b :: l) (by simp))

theorem npMin_le [LinearOrder α] (d : α) : ∀ l : List α, ∀ x ∈ l, npMin d l ≤ x
  | [a], x, hx => by
    rw [List.mem_singleton] at hx
    simp [npMin, hx]
  | a :: b :: l, x, hx => by
    rw [npMin]
    rcases List.mem_cons.mp hx with h | h
    · exact h ▸ min_le_left _ _
    · exact (min_le_right _ _).trans (npMin_le d (b :: l) x h)

theorem npMin_le_npMax [LinearOrder α] (d : α) (l : List α) (h : l ≠ []) :
    npMin d l ≤ npMax d l :=
  le_npMax d l _ (npMin_mem d l h)

theorem npMax_perm [LinearOrder α] (d : α) {l₁ l₂ : List α} (h : l₁.Perm l₂) (hne : l₁ ≠ []) :
    npMax d l₁ = npMax d l₂ := by
  have hne₂ : l₂ ≠ [] := by
    intro h2
    exact hne (List.eq_nil_of_length_eq_zero (h.length_eq.trans (h2 ▸ rfl)))
  exact le_antisymm
    (le_npMax d l₂ _ (h.mem_iff.mp (npMax_mem d l₁ hne)))
    (le_npMax d l₁ _ (h.mem_iff.mpr (npMax_mem d l₂ hne₂)))

theorem npMin_perm [LinearOrder α] (d : α) {l₁ l₂ : List α} (h : l₁.Perm l₂) (hne : l₁ ≠ []) :
    npMin d l₁ = npMin d l₂ := by
  have hne₂ : l₂ ≠ [] := by
    intro h2
    exact hne (List.eq_nil_of_length_eq_zero (h.length_eq.trans (h2 ▸ rfl)))
  exact le_antisymm
    (npMin_le d l₁ _ (h.mem_iff.mpr (npMin_mem d l₂ hne₂)))
    (npMin_le d l₂ _ (h.mem_iff.mp (npMin_mem d l₁ hne)))

theorem hasCollision_iff : ∀ bs is : List ℤ, bs.length = is.length →
    (hasCollision bs is = true ↔
      ∃ k, k + 1 < bs.length ∧ bs.getD k 0 = bs.getD (k + 1) 0 ∧
        is.getD k 0 = is.getD (k + 1) 0)
  | [], _, _ => by simp [hasCollision]
  | [b], _, _ => by
    simp only [hasCollision, List.length_singleton]
    constructor
    · intro h; cases h
    · rintro ⟨k, hk, -⟩; omega
  | b1 :: b2 :: bs, [], h => by simp at h
  | b1 :: b2 :: bs, [i], h => by simp at h
  | b1 :: b2 :: bs, i1 :: i2 :: is, h => by
    have ih := hasCollision_iff (b2 :: bs) (i2 :: is) (by simpa using h)
    rw [hasCollision]
    constructor
    · intro hc
      rcases Bool.or_eq_true_iff.mp hc with hc | hc
      · have hb := And.left (Bool.and_eq_true_iff.mp hc)
        have hi := And.right (Bool.and_eq_true_iff.mp hc)
        exact ⟨0, by simp, by simpa using beq_iff_eq.mp hb, by simpa using beq_iff_eq.mp hi⟩
      · rcases ih.mp hc with ⟨k, hk, hb, hi⟩
        refine ⟨k + 1, ?_, ?_, ?_⟩
        · simpa using Nat.succ_lt_succ (by simpa using hk)
        · simpa using hb
        · simpa using hi
    · rintro ⟨k, hk, hb, hi⟩
      cases k with
      | zero =>
        apply Bool.or_eq_true_iff.mpr
        left
        simp only [List.getD_cons_zero, List.getD_cons_succ] at hb hi
        simp [hb, hi]
      | succ k =>
        apply Bool.or_eq_true_iff.mpr
        right
        apply ih.mpr
        refine ⟨k, ?_, ?_, ?_⟩
        · simp only [List.length_cons] at hk ⊢; omega
        · simpa using hb
        · simpa using hi

theorem hasCollision_nil_left (is : List ℤ) : hasCollision [] is = false := by
  cases is <;> rfl

theorem timestep_mono (dt : ℚ) (hdt : 0 < dt) {t1 t2 : ℚ} (h : t1 ≤ t2) :
    timestep t1 dt ≤ timestep t2 dt := by
  unfold timestep
  rw [ratFloor_eq_floor, ratFloor_eq_floor]
  exact Int.floor_le_floor ((div_le_div_iff_of_pos_right hdt).mpr (by linarith))

theorem mem_pastIndices {times : List ℚ} {t dt : ℚ} {k : ℕ} :
    k ∈ pastIndices times t dt ↔
      k < times.length ∧ timestep (times.getD k 0) dt < timestep t dt := by
  simp [pastIndices, List.mem_filter, List.mem_range]

theorem pastIndices_pairwise (times : List ℚ) (t dt : ℚ) :
    List.Pairwise (fun a b => a < b) (pastIndices times t dt) :=
  List.Pairwise.filter _ (List.pairwise_lt_range _)

theorem mem_of_getLast?_eq {l : List ℕ} {b : ℕ} (h : l.getLast? = some b) : b ∈ l := by
  rcases List.getLast?_eq_some_iff.mp h with ⟨ys, rfl⟩
  simp

theorem le_getLast?_of_pairwise_lt : ∀ {l : List ℕ},
    List.Pairwise (fun a b => a < b) l → ∀ {a b : ℕ}, a ∈ l → l.getLast? = some b → a ≤ b
  | [], _, _, _, ha, _ => absurd ha (List.not_mem_nil _)
  | [c], _, a, b, ha, hb => by
    rw [List.mem_singleton] at ha
    simp only [List.getLast?_singleton, Option.some.injEq] at hb
    omega
  | c :: d :: l, hp, a, b, ha, hb => by
    rw [List.getLast?_cons_cons] at hb
    rcases List.mem_cons.mp ha with rfl | ha
    · exact (List.rel_of_pairwise_cons hp (mem_of_getLast?_eq hb)).le
    · exact le_getLast?_of_pairwise_lt (List.pairwise_cons.mp hp).2 ha hb

theorem sorted_getD_mono {times : List ℚ}
    (hsorted : List.Pairwise (fun a b : ℚ => a ≤ b) times) {i j : ℕ}
    (hij : i ≤ j) (hj : j < times.length) :
    times.getD i 0 ≤ times.getD j 0 := by
  rcases eq_or_lt_of_le hij with rfl | hij
  · exact le_refl _
  · rw [List.getD_eq_getElem _ _ (lt_trans hij hj), List.getD_eq_getElem _ _ hj]
    exact List.pairwise_iff_get.mp hsorted ⟨i, lt_trans hij hj⟩ ⟨j, hj⟩ hij

/-- The recomputed cursor is the index of the first event whose bin is not in
the past: it is at most the event count, every event strictly before it has a
bin before the current step, and every event from it on does not. -/
theorem newCursor_spec (times : List ℚ) (t dt : ℚ) (hdt : 0 < dt)
    (hsorted : List.Pairwise (fun a b : ℚ => a ≤ b) times) :
    newCursor times t dt ≤ times.length ∧
    (∀ i, i < newCursor times t dt → timestep (times.getD i 0) dt < timestep t dt) ∧
    (∀ i, newCursor times t dt ≤ i → i < times.length →
      timestep t dt ≤ timestep (times.getD i 0) dt) := by
  unfold newCursor
  cases hlast : (pastIndices times t dt).getLast? with
  | none =>
    rw [List.getLast?_eq_none_iff] at hlast
    refine ⟨Nat.zero_le _, fun i hi => absurd hi (Nat.not_lt_zero i), fun i _ hi => ?_⟩
    by_contra hlt
    have : i ∈ pastIndices times t dt := mem_pastIndices.mpr ⟨hi, lt_of_not_le hlt⟩
    rw [hlast] at this
    exact List.not_mem_nil i this
  | some k =>
    dsimp only
    have hkmem := mem_pastIndices.mp (mem_of_getLast?_eq hlast)
    refine ⟨hkmem.1, fun i hi => ?_, fun i hki hi => ?_⟩
    · have hik : i ≤ k := Nat.lt_succ_iff.mp hi
      exact lt_of_le_of_lt
        (timestep_mono dt hdt (sorted_getD_mono hsorted hik hkmem.1)) hkmem.2
    · by_contra hlt
      have hmem : i ∈ pastIndices times t dt := mem_pastIndices.mpr ⟨hi, lt_of_not_le hlt⟩
      have := le_getLast?_of_pairwise_lt (pastIndices_pairwise times t dt) hmem hlast
      omega

theorem check_args_eq_ok_iff {indices : List ℤ} {times : List ℚ} {period : ℚ} {N : ℕ}
    {sorted : Bool} {out : List ℤ × List ℚ} :
    check_args indices times period N sorted = .ok out ↔
      indices.length = times.length ∧ ¬period < 0 ∧
      ¬(times ≠ [] ∧ period ≤ npMax 0 times) ∧
      ¬(times ≠ [] ∧ npMin 0 times < 0) ∧
      ¬(indices ≠ [] ∧ (npMin 0 indices < 0 ∨ (N : ℤ) ≤ npMax 0 indices)) ∧
      out = (if sorted then (indices, times) else sortSchedule indices times) := by
  unfold check_args
  split_ifs with h1 h2 h3 h4 h5 h6 <;> simp_all <;> tauto

theorem check_args_error_cases {indices : List ℤ} {times : List ℚ} {period : ℚ} {N : ℕ}
    {sorted : Bool} {e : Err} (h : check_args indices times period N sorted = .error e) :
    e = .lengthMismatch ∨ e = .negativePeriod ∨ e = .periodTooSmall ∨
    e = .negativeTime ∨ e = .indexOutOfRange := by
  unfold check_args at h
  split_ifs at h <;> simp_all

theorem zip_map_fst_snd : ∀ l : List (ℚ × ℤ), (l.map Prod.fst).zip (l.map Prod.snd) = l
  | [] => rfl
  | a :: l => by
    rw [List.map_cons, List.map_cons, List.zip_cons_cons, zip_map_fst_snd l]

theorem check_args_ok_sorted_perm {indices : List ℤ} {times : List ℚ} {period : ℚ} {N : ℕ}
    {ids' : List ℤ} {times' : List ℚ}
    (h : check_args indices times period N false = .ok (ids', times')) :
    (times'.zip ids').Perm (times.zip indices) ∧ List.Pairwise timeIdLe (times'.zip ids') := by
  have hout := (check_args_eq_ok_iff.mp h).2.2.2.2.2
  simp only [Bool.false_eq_true, if_false] at hout
  unfold sortSchedule at hout
  have h1 : ids' = (List.insertionSort timeIdLe (times.zip indices)).map Prod.snd :=
    congrArg Prod.fst hout
  have h2 : times' = (List.insertionSort timeIdLe (times.zip indices)).map Prod.fst :=
    congrArg Prod.snd hout
  rw [h1, h2, zip_map_fst_snd]
  exact ⟨List.perm_insertionSort _ _, List.sorted_insertionSort _ _⟩

theorem set_spikesRun_error {st : GenState} {indices : List ℤ} {times : List ℚ} {period : ℚ}
    {sorted : Bool} {st' : GenState} {e : Err}
    (h : set_spikesRun st indices times period sorted = (st', some e)) :
    st' = st ∧ check_args indices times period st.N sorted = .error e := by
  unfold set_spikesRun at h
  cases hc : check_args indices times period st.N sorted with
  | error e2 =>
    rw [hc] at h
    simp only [Prod.mk.injEq, Option.some.injEq] at h
    exact ⟨h.1.symm, by rw [h.2]⟩
  | ok p =>
    obtain ⟨i, t⟩ := p
    rw [hc] at h
    simp at h

theorem set_spikesRun_ok {st : GenState} {indices : List ℤ} {times : List ℚ} {period : ℚ}
    {sorted : Bool} {st' : GenState}
    (h : set_spikesRun st indices times period sorted = (st', none)) :
    ∃ i t, check_args indices times period st.N sorted = .ok (i, t) ∧
      st' = { st with
                neuron_index := i
                spike_time := t
                spike_number := List.range i.length
                period := period
                spikes_changed := true } := by
  unfold set_spikesRun at h
  cases hc : check_args indices times period st.N sorted with
  | error e2 =>
    rw [hc] at h
    simp at h
  | ok p =>
    obtain ⟨i, t⟩ := p
    rw [hc] at h
    simp only [Prod.mk.injEq] at h
    exact ⟨i, t, rfl, h.1.symm⟩

theorem before_runRun_period_error {st : GenState} {t dt : ℚ} {e : Err}
    (hp : periodCheck st.period dt = some e) :
    before_runRun st t dt = (st, some e, false) := by
  unfold before_runRun
  rw [hp]

theorem before_runRun_of_none {st : GenState} {t dt : ℚ}
    (hp : periodCheck st.period dt = none) :
    before_runRun st t dt =
      (if (cursorState st t dt).previous_dt = none ∨
          ¬(cursorState st t dt).previous_dt = some dt ∨
          (cursorState st t dt).spikes_changed = true then
        if collisionFlag (cursorState st t dt).neuron_index (cursorState st t dt).spike_time dt then
          (cursorState st t dt, some .collision,
            st.spikes_changed && !(pastIndices st.spike_time t dt).isEmpty)
        else ({ cursorState st t dt with previous_dt := some dt, spikes_changed := false }, none,
          st.spikes_changed && !(pastIndices st.spike_time t dt).isEmpty)
      else (cursorState st t dt, none,
        st.spikes_changed && !(pastIndices st.spike_time t dt).isEmpty)) := by
  unfold before_runRun
  rw [hp]

theorem cursorState_fields (st : GenState) (t dt : ℚ) :
    (cursorState st t dt).spike_time = st.spike_time ∧
    (cursorState st t dt).neuron_index = st.neuron_index ∧
    (cursorState st t dt).period = st.period ∧
    (cursorState st t dt).N = st.N ∧
    (cursorState st t dt).spike_number = st.spike_number ∧
    (cursorState st t dt).previous_dt = st.previous_dt ∧
    (cursorState st t dt).spikes_changed = st.spikes_changed := by
  unfold cursorState
  split <;> exact ⟨rfl, rfl, rfl, rfl, rfl, rfl, rfl⟩

theorem cursorState_lastindex_dirty {st : GenState} {t dt : ℚ}
    (hd : st.spikes_changed = true) :
    (cursorState st t dt).lastindex = newCursor st.spike_time t dt := by
  unfold cursorState
  rw [if_pos hd]

theorem periodCheck_spec (p dt : ℚ) :
    (periodCheck p dt = some .periodSmallerThanDt ↔ p < dt) ∧
    (periodCheck p dt = some .periodNotMultiple ↔
      ¬p < dt ∧ p < 1000 ∧
      ∃ k : ℕ, k < Int.toNat (ratFloor (1000 / p)) ∧
        ¬timestep ((k : ℚ) * p) dt % timestep p dt = 0) ∧
    (periodCheck p dt = none ↔
      ¬p < dt ∧ (p < 1000 →
        ∀ k : ℕ, k < Int.toNat (ratFloor (1000 / p)) →
          timestep ((k : ℚ) * p) dt % timestep p dt = 0)) := by
  unfold periodCheck
  split_ifs with h1 h2 h3 <;>
    simp_all [List.all_eq_true, List.mem_range, beq_iff_eq]

theorem getD_map_timebin {times : List ℚ} {dt : ℚ} {k : ℕ} (hk : k < times.length) :
    (times.map (fun τ => timebin τ dt)).getD k 0 = timebin (times.getD k 0) dt := by
  rw [List.getD_eq_getElem _ _ (by simpa using hk), List.getD_eq_getElem _ _ hk,
    List.getElem_map]

theorem collisionFlag_iff {ids : List ℤ} {times : List ℚ} {dt : ℚ}
    (hlen : ids.length = times.length) :
    collisionFlag ids times dt = true ↔
      ∃ k, k + 1 < times.length ∧
        timebin (times.getD k 0) dt = timebin (times.getD (k + 1) 0) dt ∧
        ids.getD k 0 = ids.getD (k + 1) 0 := by
  unfold collisionFlag
  rw [hasCollision_iff _ _ (by simp [hlen])]
  constructor
  · rintro ⟨k, hk, hb, hi⟩
    rw [List.length_map] at hk
    refine ⟨k, hk, ?_, hi⟩
    rwa [getD_map_timebin (Nat.lt_of_succ_lt hk), getD_map_timebin hk] at hb
  · rintro ⟨k, hk, hb, hi⟩
    refine ⟨k, by simpa using hk, ?_, hi⟩
    rwa [getD_map_timebin (Nat.lt_of_succ_lt hk), getD_map_timebin hk]

/-! Claim theorems. -/

/-- C1 fails as stated: the schedule ids=[0,1,0], times=[1/2, 3/5, 7/10] is
sorted ascending by (time, entityIndex), dt = 1 > 0, the non-adjacent events
at positions 0 and 2 have the same entityIndex and the same timestep bin, yet
the adjacent-pair scan reports no collision, so it is not a complete check for
arbitrary (non-adjacent) same-bin duplicates. -/
theorem c1_counterexample :
    List.Pairwise timeIdLe (([(1 : ℚ)/2, 3/5, 7/10]).zip ([0, 1, 0] : List ℤ)) ∧
    (0 : ℚ) < 1 ∧
    (2 : ℕ) + 1 ≤ ([(1 : ℚ)/2, 3/5, 7/10] : List ℚ).length ∧
    ([0, 1, 0] : List ℤ).getD 0 0 = ([0, 1, 0] : List ℤ).getD 2 0 ∧
    timebin (([(1 : ℚ)/2, 3/5, 7/10] : List ℚ).getD 0 0) 1 =
      timebin (([(1 : ℚ)/2, 3/5, 7/10] : List ℚ).getD 2 0) 1 ∧
    collisionFlag [0, 1, 0] [1/2, 3/5, 7/10] 1 = false := by
  decide

/-- C1 (amended): for a schedule sorted ascending by (time, entityIndex) with
index and time arrays of equal length and any dt > 0, the run-start collision
detector raises CollisionError if and only if two events at ADJACENT positions
have the same entityIndex and the same timestep bin; same-entity same-bin
pairs that are not adjacent are not detected (see `c1_counterexample`). -/
theorem c1_adjacent_scan_characterization (ids : List ℤ) (times : List ℚ) (dt : ℚ)
    (hlen : ids.length = times.length)
    (hsorted : List.Pairwise timeIdLe (times.zip ids)) (hdt : 0 < dt) :
    collisionFlag ids times dt = true ↔
      ∃ k, k + 1 < times.length ∧
        timebin (times.getD k 0) dt = timebin (times.getD (k + 1) 0) dt ∧
        ids.getD k 0 = ids.getD (k + 1) 0 :=
  collisionFlag_iff hlen

/-- C1 witness: the spec's collision example, ids=[0,0], times=[0.5ms, 0.7ms],
dt=1ms (seconds: 1/2000, 7/10000, 1/1000) — both events bin to 0, adjacent,
so the detector raises. -/
theorem c1_witness :
    collisionFlag [0, 0] [1/2000, 7/10000] (1/1000) = true :=
  (c1_adjacent_scan_characterization [0, 0] [1/2000, 7/10000] (1/1000)
    (by decide) (by decide) (by decide)).mpr ⟨0, by decide, by decide, by decide⟩

/-- C2 fails as stated: with dt = 1 and period = 399999/1000 (= 399.999),
the stored validation passes (`periodCheck = none`, sampling
k < int(1000/period) = 2), yet k = 2 satisfies k·period < 1000 and violates
the bin-divisibility condition, while period ≥ dt — so the claim's demand
that every k with k·period < 1000 be checked (raising on any failing k) does
not hold of the code. -/
theorem c2_counterexample :
    periodCheck (399999/1000) 1 = none ∧
    ¬((399999 : ℚ)/1000) < 1 ∧
    (2 : ℚ) * (399999/1000) < 1000 ∧
    ¬timestep ((2 : ℚ) * (399999/1000)) 1 % timestep (399999/1000) 1 = 0 := by
  decide

/-- C2 (amended): at every run start, the period validation raises
PeriodAlignmentError if period < dt; otherwise, if period < 1000, it requires
`binIndex(k·period, dt) mod binIndex(period, dt) = 0` for every integer k with
0 ≤ k < ⌊1000/period⌋ (the `n_periods = int(1000./period)` sampled multiples)
and raises on any failing k; it passes the period checks in all other cases.
The check runs at every run start, regardless of the dirty flag, of
`_previous_dt` and of dt changes, and a failure aborts the run start with the
state untouched. -/
theorem c2_period_check_characterization (p dt : ℚ) :
    (periodCheck p dt = some .periodSmallerThanDt ↔ p < dt) ∧
    (periodCheck p dt = some .periodNotMultiple ↔
      ¬p < dt ∧ p < 1000 ∧
      ∃ k : ℕ, k < Int.toNat (ratFloor (1000 / p)) ∧
        ¬timestep ((k : ℚ) * p) dt % timestep p dt = 0) ∧
    (periodCheck p dt = none ↔
      ¬p < dt ∧ (p < 1000 →
        ∀ k : ℕ, k < Int.toNat (ratFloor (1000 / p)) →
          timestep ((k : ℚ) * p) dt % timestep p dt = 0)) ∧
    (∀ (st : GenState) (t : ℚ) (e : Err), st.period = p →
      periodCheck p dt = some e → before_runRun st t dt = (st, some e, false)) :=
  ⟨(periodCheck_spec p dt).1, (periodCheck_spec p dt).2.1, (periodCheck_spec p dt).2.2,
    fun st t e hst hp => before_runRun_period_error (hst ▸ hp)⟩

/-- C2 witness: the spec's rejection example, period = 0.5ms with dt = 1ms:
the validation fails with "period smaller than timestep" at every run start,
here on a clean state with a cached `_previous_dt`. -/
theorem c2_witness :
    periodCheck (1/2000) (1/1000) = some .periodSmallerThanDt ∧
    before_runRun
      { exampleState with period := 1/2000, spikes_changed := false,
                          previous_dt := some (1/1000) } 0 (1/1000) =
      ({ exampleState with period := 1/2000, spikes_changed := false,
                           previous_dt := some (1/1000) }, some .periodSmallerThanDt, false) := by
  have h1 := (c2_period_check_characterization (1/2000) (1/1000)).1.mpr (by decide)
  exact ⟨h1, (c2_period_check_characterization (1/2000) (1/1000)).2.2.2
    { exampleState with period := 1/2000, spikes_changed := false,
                        previous_dt := some (1/1000) } 0 .periodSmallerThanDt rfl h1⟩

/-- C6: for every time t ≥ 0 and dt > 0, the bin assigned by the collision
check (computed in the source by a numpy int32 cast, i.e. truncation toward
zero) equals floor((t + 1e-3·dt)/dt) with ε = 1e-3 exactly, and an event at an
exact multiple k·dt is assigned bin k (the following bin), not bin k-1. -/
theorem c6_timebin_floor (t dt : ℚ) (ht : 0 ≤ t) (hdt : 0 < dt) :
    timebin t dt = ⌊(t + (1 / 1000) * dt) / dt⌋ ∧
    ∀ k : ℕ, timebin ((k : ℚ) * dt) dt = k := by
  have key : ∀ s : ℚ, 0 ≤ s → timebin s dt = ⌊(s + (1 / 1000) * dt) / dt⌋ := by
    intro s hs
    have hshift : (0 : ℚ) < (1 / 1000) * dt := by positivity
    have hq0 : (0 : ℚ) ≤ (s + (1 / 1000) * dt) / dt := by
      apply div_nonneg _ hdt.le
      linarith
    unfold timebin int32trunc
    rw [← ratFloor_eq_floor]
    unfold ratFloor
    rw [Int.tdiv_eq_ediv (Rat.num_nonneg.mpr hq0) (Int.ofNat_nonneg _)]
  refine ⟨key t ht, fun k => ?_⟩
  have harg : ((k : ℚ) * dt + (1 / 1000) * dt) / dt = 1 / 1000 + (k : ℚ) := by
    field_simp
    ring
  rw [key ((k : ℚ) * dt) (by positivity), harg]
  rw [show ((1 : ℚ) / 1000 + (k : ℚ)) = 1 / 1000 + ((k : ℕ) : ℚ) by norm_num]
  rw [Int.floor_add_nat]
  norm_num

/-- C6 witness: at t = 1/2, dt = 1 the bin is floor(0.501) = 0, and the exact
multiple 3·1 is assigned bin 3. -/
theorem c6_witness :
    timebin ((1 : ℚ)/2) 1 = ⌊((1 : ℚ)/2 + (1 / 1000) * 1) / 1⌋ ∧
    timebin (((3 : ℕ) : ℚ) * 1) 1 = 3 := by
  have h := c6_timebin_floor (1/2) 1 (by norm_num) (by norm_num)
  exact ⟨h.1, h.2 3⟩

/-- C7: the argument validator rejects every call with a non-empty times array
and period = 0 (either the period fails to exceed the maximum time, or a
negative time is reported first), while with both arrays empty a zero period
passes the whole validation. -/
theorem c7_zero_period (indices : List ℤ) (times : List ℚ) (N : ℕ) (sorted : Bool) :
    (times ≠ [] → ∃ e, check_args indices times 0 N sorted = .error e) ∧
    check_args [] [] 0 N sorted = .ok ([], []) := by
  constructor
  · intro hne
    unfold check_args
    split_ifs with h1 h2 h3 h4 h5 h6
    · exact ⟨.lengthMismatch, rfl⟩
    · exact ⟨.negativePeriod, rfl⟩
    · exact ⟨.periodTooSmall, rfl⟩
    · exact ⟨.negativeTime, rfl⟩
    · exact ⟨.indexOutOfRange, rfl⟩
    all_goals exfalso
    all_goals push_neg at h3 h4
    all_goals have hmax := h3 hne
    all_goals have hmin := h4 hne
    all_goals have hminmax := npMin_le_npMax 0 times hne
    all_goals linarith
  · have hs : sortSchedule ([] : List ℤ) ([] : List ℚ) = ([], []) := rfl
    cases sorted <;> simp [check_args, hs]

/-- C7 witness: times=[1/2] with period 0 is rejected; the empty call with
period 0 passes. -/
theorem c7_witness :
    (∃ e, check_args [0] [1/2] 0 3 false = .error e) ∧
    check_args [] [] 0 3 false = .ok ([], []) :=
  ⟨(c7_zero_period [0] [1/2] 3 false).1 (by decide), (c7_zero_period [0] [1/2] 3 false).2⟩

/-- C9: replacement is atomic on failure: whenever `set_spikes` raises, the
whole state (schedule, period, eventNumber sequence, dirty flag, cursor and
cache included) is exactly as before the call, and the error is one of the
five validation errors of `_check_args`. -/
theorem c9_atomic_failure (st : GenState) (indices : List ℤ) (times : List ℚ) (period : ℚ)
    (sorted : Bool) (st' : GenState) (e : Err)
    (h : set_spikesRun st indices times period sorted = (st', some e)) :
    st' = st ∧
    (e = .lengthMismatch ∨ e = .negativePeriod ∨ e = .periodTooSmall ∨
      e = .negativeTime ∨ e = .indexOutOfRange) :=
  ⟨(set_spikesRun_error h).1, check_args_error_cases (set_spikesRun_error h).2⟩

/-- C9 witness: a negative spike time is rejected and leaves the state as it
was. -/
theorem c9_witness :
    exampleState = exampleState ∧
    (Err.negativeTime = .lengthMismatch ∨ Err.negativeTime = .negativePeriod ∨
      Err.negativeTime = .periodTooSmall ∨ Err.negativeTime = .negativeTime ∨
      Err.negativeTime = .indexOutOfRange) :=
  c9_atomic_failure exampleState [0] [-1/2] 1 false exampleState .negativeTime (by decide)

theorem initSGG_ok {N : ℕ} {indices : List ℤ} {times : List ℚ} {period : ℚ} {sorted : Bool}
    {st : GenState} (h : initSGG N indices times period sorted = .ok st) :
    1 ≤ N ∧ ∃ i t, check_args indices times period N sorted = .ok (i, t) ∧
      st = { N := N
             neuron_index := i
             spike_time := t
             spike_number := List.range i.length
             period := period
             spikes_changed := true
             previous_dt := none
             lastindex := 0 } := by
  unfold initSGG at h
  split_ifs at h with hN
  cases hc : check_args indices times period N sorted with
  | error e =>
    rw [hc] at h
    simp at h
  | ok p =>
    obtain ⟨i, t⟩ := p
    rw [hc] at h
    injection h with h
    exact ⟨by omega, i, t, rfl, h.symm⟩

theorem periodCheck_error_cases {p dt : ℚ} {e : Err} (h : periodCheck p dt = some e) :
    e = .periodSmallerThanDt ∨ e = .periodNotMultiple := by
  unfold periodCheck at h
  split_ifs at h <;> simp_all

/-- A reachable state with an empty schedule and a clean dirty flag has cursor
zero (the cursor was recomputed to zero by the `before_run` that cleared the
flag). -/
theorem reachable_empty_clean_cursor {st : GenState} (h : Reachable st) :
    st.spike_time = [] → st.spikes_changed = false → st.lastindex = 0 := by
  induction h with
  | init hinit =>
    intro _ hclean
    obtain ⟨-, i, t, -, hst⟩ := initSGG_ok hinit
    rw [hst] at hclean
    cases hclean
  | step_set hr heq ih =>
    intro hemp hclean
    rename_i st0 st1 indices times period sorted e
    cases e with
    | none =>
      obtain ⟨i, t, -, hst⟩ := set_spikesRun_ok heq
      rw [hst] at hclean
      cases hclean
    | some e2 =>
      have hst := (set_spikesRun_error heq).1
      rw [hst] at hemp hclean ⊢
      exact ih hemp hclean
  | step_run hr heq ih =>
    intro hemp hclean
    rename_i st0 st1 t dt e w
    cases hp : periodCheck st0.period dt with
    | some e2 =>
      rw [before_runRun_period_error hp] at heq
      have hst : st0 = st1 := congrArg Prod.fst heq
      rw [← hst] at hemp hclean ⊢
      exact ih hemp hclean
    | none =>
      rw [before_runRun_of_none hp] at heq
      have hfields := cursorState_fields st0 t dt
      cases hd : st0.spikes_changed with
      | true =>
        have hst1 : st1.lastindex = (cursorState st0 t dt).lastindex ∧
            st1.spike_time = (cursorState st0 t dt).spike_time := by
          split_ifs at heq with hcond hcol <;>
            simp only [Prod.mk.injEq] at heq <;>
            rw [← heq.1] <;> exact ⟨rfl, rfl⟩
        have hemp0 : st0.spike_time = [] := by
          rw [hst1.2, hfields.1] at hemp
          exact hemp
        rw [hst1.1, cursorState_lastindex_dirty hd, hemp0]
        rfl
      | false =>
        have hcs : cursorState st0 t dt = st0 := by
          unfold cursorState
          rw [hd]
          simp
        rw [hcs] at heq
        have hst1 : st1.lastindex = st0.lastindex ∧ st1.spike_time = st0.spike_time := by
          split_ifs at heq with hcond hcol <;>
            simp only [Prod.mk.injEq] at heq <;>
            rw [← heq.1] <;> exact ⟨rfl, rfl⟩
        rw [hst1.1]
        apply ih _ hd
        rw [← hst1.2]
        exact hemp

/-- C3: at a run start on a dirty (schedule-sorted) state whose period checks
pass, the playback cursor is set to the index of the first event whose bin is
at or after binIndex(t, dt) — every earlier event has a strictly smaller bin,
every event from the cursor on does not — and 0 ≤ cursor ≤ M holds. -/
theorem c3_cursor_first_index (st : GenState) (t dt : ℚ) (st' : GenState) (e : Option Err)
    (w : Bool) (hdt : 0 < dt) (hdirty : st.spikes_changed = true)
    (hsorted : List.Pairwise (fun a b : ℚ => a ≤ b) st.spike_time)
    (hperiod : periodCheck st.period dt = none)
    (hrun : before_runRun st t dt = (st', e, w)) :
    st'.lastindex ≤ st.spike_time.length ∧
    (∀ i, i < st'.lastindex → timestep (st.spike_time.getD i 0) dt < timestep t dt) ∧
    (∀ i, st'.lastindex ≤ i → i < st.spike_time.length →
      timestep t dt ≤ timestep (st.spike_time.getD i 0) dt) := by
  have hli : st'.lastindex = newCursor st.spike_time t dt := by
    rw [before_runRun_of_none hperiod] at hrun
    have hst1 : st'.lastindex = (cursorState st t dt).lastindex := by
      split_ifs at hrun <;>
        simp only [Prod.mk.injEq] at hrun <;>
        rw [← hrun.1]
      all_goals rfl
    rw [hst1, cursorState_lastindex_dirty hdirty]
  rw [hli]
  exact newCursor_spec st.spike_time t dt hdt hsorted

/-- C3 witness: the spec's skip-past example — run starting at t = 10ms with
dt = 1ms and a single event at 2ms: the cursor lands one past the skipped
event and that event's bin is before the run-start bin. -/
theorem c3_witness :
    ({ exampleState with
        neuron_index := [0]
        spike_time := [1/500]
        spike_number := [0]
        lastindex := 1
        previous_dt := some (1/1000)
        spikes_changed := false } : GenState).lastindex ≤
      ([(1 : ℚ)/500] : List ℚ).length ∧
    timestep (([(1 : ℚ)/500] : List ℚ).getD 0 0) (1/1000) < timestep ((1 : ℚ)/100) (1/1000) := by
  have h := c3_cursor_first_index
    { exampleState with neuron_index := [0], spike_time := [1/500], spike_number := [0] }
    (1/100) (1/1000)
    { exampleState with
        neuron_index := [0]
        spike_time := [1/500]
        spike_number := [0]
        lastindex := 1
        previous_dt := some (1/1000)
        spikes_changed := false }
    none true (by decide) rfl (by decide) (by decide) (by decide)
  exact ⟨h.1, h.2.1 0 (by decide)⟩

/-- C4: every input accepted by construction or by replacement with
alreadySorted = false is stored as a schedule that is a permutation of the
input events and is sorted ascending by (time, entityIndex); together with the
uniqueness of sorted permutations this is exactly the stable (time, id) sort
of the input. -/
theorem c4_schedule_sorted_perm (indices : List ℤ) (times : List ℚ) (period : ℚ) :
    (∀ st st' : GenState, set_spikesRun st indices times period false = (st', none) →
      (st'.spike_time.zip st'.neuron_index).Perm (times.zip indices) ∧
      List.Pairwise timeIdLe (st'.spike_time.zip st'.neuron_index)) ∧
    (∀ (N : ℕ) (st' : GenState), initSGG N indices times period false = .ok st' →
      (st'.spike_time.zip st'.neuron_index).Perm (times.zip indices) ∧
      List.Pairwise timeIdLe (st'.spike_time.zip st'.neuron_index)) := by
  constructor
  · intro st st' h
    obtain ⟨i, t, hc, hst⟩ := set_spikesRun_ok h
    have hres := check_args_ok_sorted_perm hc
    rw [hst]
    exact hres
  · intro N st' h
    obtain ⟨-, i, t, hc, hst⟩ := initSGG_ok h
    have hres := check_args_ok_sorted_perm hc
    rw [hst]
    exact hres

/-- C4 witness: the unsorted input ids=[0,1], times=[3/2, 1/2] is stored as
the (time, id)-sorted permutation [(1/2, 1), (3/2, 0)]. -/
theorem c4_witness :
    ((([(1 : ℚ)/2, 3/2]).zip ([1, 0] : List ℤ)).Perm
      (([(3 : ℚ)/2, 1/2]).zip ([0, 1] : List ℤ))) ∧
    List.Pairwise timeIdLe (([(1 : ℚ)/2, 3/2]).zip ([1, 0] : List ℤ)) := by
  have h := (c4_schedule_sorted_perm [0, 1] [3/2, 1/2] 5).1 exampleState
    { exampleState with
        neuron_index := [1, 0]
        spike_time := [1/2, 3/2]
        spike_number := [0, 1]
        period := 5
        spikes_changed := true }
    (by decide)
  exact h

/-- C5: the dirty flag is set by every construction and every successful
replacement and is untouched by a failed replacement; it is cleared only by a
run start whose collision pass (at the active dt) succeeds, which also caches
that dt; a collision error leaves both the flag and the cached dt unchanged;
and the collision check is re-run whenever the state is dirty or the active dt
differs from the cached one (including an empty cache): in that case the
scan's verdict at the active dt decides the outcome — CollisionError exactly
when the scan finds an adjacent duplicate, and success implies the scan found
none and updates the cache. -/
theorem c5_dirty_flag_lifecycle :
    (∀ (N : ℕ) (indices : List ℤ) (times : List ℚ) (period : ℚ) (sorted : Bool)
        (st : GenState), initSGG N indices times period sorted = .ok st →
      st.spikes_changed = true) ∧
    (∀ (st : GenState) (indices : List ℤ) (times : List ℚ) (period : ℚ) (sorted : Bool)
        (st' : GenState), set_spikesRun st indices times period sorted = (st', none) →
      st'.spikes_changed = true) ∧
    (∀ (st : GenState) (indices : List ℤ) (times : List ℚ) (period : ℚ) (sorted : Bool)
        (st' : GenState) (e : Err), set_spikesRun st indices times period sorted = (st', some e) →
      st'.spikes_changed = st.spikes_changed) ∧
    (∀ (st : GenState) (t dt : ℚ) (st' : GenState) (e : Option Err) (w : Bool),
      before_runRun st t dt = (st', e, w) →
      (st'.spikes_changed = false → st.spikes_changed = true →
        e = none ∧ st'.previous_dt = some dt ∧
        collisionFlag st.neuron_index st.spike_time dt = false) ∧
      (e = some .collision → st'.spikes_changed = st.spikes_changed ∧
        st'.previous_dt = st.previous_dt) ∧
      ((st.spikes_changed = true ∨ ¬st.previous_dt = some dt) →
        periodCheck st.period dt = none →
        (e = none ∨ e = some .collision) ∧
        (e = some .collision ↔ collisionFlag st.neuron_index st.spike_time dt = true) ∧
        (e = none → st'.spikes_changed = false ∧ st'.previous_dt = some dt ∧
          collisionFlag st.neuron_index st.spike_time dt = false))) := by
  refine ⟨?_, ?_, ?_, ?_⟩
  · intro N indices times period sorted st h
    obtain ⟨-, i, t, -, hst⟩ := initSGG_ok h
    rw [hst]
  · intro st indices times period sorted st' h
    obtain ⟨i, t, -, hst⟩ := set_spikesRun_ok h
    rw [hst]
  · intro st indices times period sorted st' e h
    rw [(set_spikesRun_error h).1]
  · intro st t dt st' e w hrun
    have hfields := cursorState_fields st t dt
    cases hp : periodCheck st.period dt with
    | some e2 =>
      rw [before_runRun_period_error hp] at hrun
      simp only [Prod.mk.injEq] at hrun
      obtain ⟨hst, he, hw⟩ := hrun
      refine ⟨?_, ?_, ?_⟩
      · intro hcf hct
        rw [← hst] at hcf
        rw [hcf] at hct
        cases hct
      · intro hcol
        rw [← he] at hcol
        rcases periodCheck_error_cases hp with h2 | h2 <;> rw [h2] at hcol <;> cases hcol
      · intro _ hnone
        exact absurd hnone (by simp [hp])
    | none =>
      rw [before_runRun_of_none hp] at hrun
      split_ifs at hrun with hcond hcol
      · simp only [Prod.mk.injEq] at hrun
        obtain ⟨hst, he, hw⟩ := hrun
        refine ⟨?_, ?_, ?_⟩
        · intro hcf hct
          rw [← hst, hfields.2.2.2.2.2.2] at hcf
          rw [hcf] at hct
          cases hct
        · intro _
          rw [← hst]
          exact ⟨hfields.2.2.2.2.2.2, hfields.2.2.2.2.2.1⟩
        · intro _ _
          have hcol2 : collisionFlag st.neuron_index st.spike_time dt = true := by
            rwa [hfields.2.1, hfields.1] at hcol
          refine ⟨Or.inr he.symm, ⟨fun _ => hcol2, fun _ => he.symm⟩, fun hne => ?_⟩
          rw [← he] at hne
          cases hne
      · simp only [Prod.mk.injEq] at hrun
        obtain ⟨hst, he, hw⟩ := hrun
        refine ⟨?_, ?_, ?_⟩
        · intro _ _
          refine ⟨he.symm, by rw [← hst], ?_⟩
          rw [Bool.not_eq_true] at hcol
          rwa [hfields.2.1, hfields.1] at hcol
        · intro hcolE
          rw [← he] at hcolE
          cases hcolE
        · intro _ _
          have hcol2 : collisionFlag st.neuron_index st.spike_time dt = false := by
            rw [Bool.not_eq_true] at hcol
            rwa [hfields.2.1, hfields.1] at hcol
          refine ⟨Or.inl he.symm, ?_, fun _ => ⟨by rw [← hst], by rw [← hst], hcol2⟩⟩
          constructor
          · intro hcolE
            rw [← he] at hcolE
            cases hcolE
          · intro hflag
            rw [hcol2] at hflag
            cases hflag
      · simp only [Prod.mk.injEq] at hrun
        obtain ⟨hst, he, hw⟩ := hrun
        push_neg at hcond
        obtain ⟨h1, h2, h3⟩ := hcond
        refine ⟨?_, ?_, ?_⟩
        · intro _ hct
          rw [hfields.2.2.2.2.2.2] at h3
          rw [hct] at h3
          exact absurd rfl h3
        · intro hcolE
          rw [← he] at hcolE
          cases hcolE
        · intro hor _
          rw [hfields.2.2.2.2.2.2] at h3
          rw [hfields.2.2.2.2.2.1] at h2
          rcases hor with hor | hor
          · exact absurd hor h3
          · exact absurd h2 hor

/-- C5 witness: construction leaves the example state dirty. -/
theorem c5_witness : exampleState.spikes_changed = true :=
  c5_dirty_flag_lifecycle.1 2 [] [] 100000 false exampleState (by decide)

/-- C8: replacing the schedule with any permutation of an event multiset,
unsorted (alreadySorted = false), produces exactly the same resulting state —
entityIndex, time and eventNumber sequences included — as replacing it with
the (time, id)-sorted form of the multiset with alreadySorted = true. -/
theorem c8_replace_perm_sorted (st : GenState) (indices : List ℤ) (times : List ℚ)
    (period : ℚ) (prs : List (ℚ × ℤ)) (st' : GenState)
    (hperm : (times.zip indices).Perm prs)
    (hok : set_spikesRun st indices times period false = (st', none)) :
    set_spikesRun st ((List.insertionSort timeIdLe prs).map Prod.snd)
      ((List.insertionSort timeIdLe prs).map Prod.fst) period true = (st', none) := by
  obtain ⟨i, t, hc, hst⟩ := set_spikesRun_ok hok
  obtain ⟨hlen, hnp, hmax, hmin, hidx, hout⟩ := check_args_eq_ok_iff.mp hc
  have hsEq : List.insertionSort timeIdLe (times.zip indices) =
      List.insertionSort timeIdLe prs :=
    List.eq_of_perm_of_sorted
      (((List.perm_insertionSort _ _).trans hperm).trans (List.perm_insertionSort _ _).symm)
      (List.sorted_insertionSort _ _) (List.sorted_insertionSort _ _)
  have htimes2 : ((List.insertionSort timeIdLe prs).map Prod.fst).Perm times := by
    have h1 := List.Perm.map Prod.fst ((List.perm_insertionSort timeIdLe prs).trans hperm.symm)
    rwa [List.map_fst_zip _ _ (le_of_eq hlen.symm)] at h1
  have hids2 : ((List.insertionSort timeIdLe prs).map Prod.snd).Perm indices := by
    have h1 := List.Perm.map Prod.snd ((List.perm_insertionSort timeIdLe prs).trans hperm.symm)
    rwa [List.map_snd_zip _ _ (le_of_eq hlen)] at h1
  have hc2 : check_args ((List.insertionSort timeIdLe prs).map Prod.snd)
      ((List.insertionSort timeIdLe prs).map Prod.fst) period st.N true =
      .ok ((List.insertionSort timeIdLe prs).map Prod.snd,
           (List.insertionSort timeIdLe prs).map Prod.fst) := by
    apply check_args_eq_ok_iff.mpr
    refine ⟨by rw [List.length_map, List.length_map], hnp, ?_, ?_, ?_, by simp⟩
    · rintro ⟨hne, hle⟩
      have hne1 : times ≠ [] := by
        intro h0
        rw [h0] at htimes2
        exact hne (List.eq_nil_of_length_eq_zero htimes2.length_eq)
      rw [npMax_perm 0 htimes2 hne] at hle
      exact hmax ⟨hne1, hle⟩
    · rintro ⟨hne, hlt⟩
      have hne1 : times ≠ [] := by
        intro h0
        rw [h0] at htimes2
        exact hne (List.eq_nil_of_length_eq_zero htimes2.length_eq)
      rw [npMin_perm 0 htimes2 hne] at hlt
      exact hmin ⟨hne1, hlt⟩
    · rintro ⟨hne, hor⟩
      have hne1 : indices ≠ [] := by
        intro h0
        rw [h0] at hids2
        exact hne (List.eq_nil_of_length_eq_zero hids2.length_eq)
      rcases hor with hlt | hge
      · rw [npMin_perm 0 hids2 hne] at hlt
        exact hidx ⟨hne1, Or.inl hlt⟩
      · rw [npMax_perm 0 hids2 hne] at hge
        exact hidx ⟨hne1, Or.inr hge⟩
  have hit : i = (List.insertionSort timeIdLe prs).map Prod.snd ∧
      t = (List.insertionSort timeIdLe prs).map Prod.fst := by
    simp only [Bool.false_eq_true, if_false] at hout
    unfold sortSchedule at hout
    rw [hsEq] at hout
    exact ⟨congrArg Prod.fst hout, congrArg Prod.snd hout⟩
  unfold set_spikesRun
  rw [hc2, hst, hit.1, hit.2]

/-- C8 witness: the two-event multiset {(1/2, 1), (3/2, 0)}: replacing with
the unsorted permutation ids=[0,1], times=[3/2, 1/2] (alreadySorted = false)
and replacing with its (time, id)-sorted form (alreadySorted = true) produce
the same stored state. -/
theorem c8_witness :
    set_spikesRun exampleState
      ((List.insertionSort timeIdLe [((1 : ℚ)/2, (1 : ℤ)), (3/2, 0)]).map Prod.snd)
      ((List.insertionSort timeIdLe [((1 : ℚ)/2, (1 : ℤ)), (3/2, 0)]).map Prod.fst) 5 true =
      ({ exampleState with
          neuron_index := [1, 0]
          spike_time := [1/2, 3/2]
          spike_number := [0, 1]
          period := 5
          spikes_changed := true }, none) :=
  c8_replace_perm_sorted exampleState [0, 1] [3/2, 1/2] 5 [((1 : ℚ)/2, (1 : ℤ)), (3/2, 0)]
    ({ exampleState with
        neuron_index := [1, 0]
        spike_time := [1/2, 3/2]
        spike_number := [0, 1]
        period := 5
        spikes_changed := true }) (by decide) (by decide)

/-- C10: a run start on a reachable state with an empty schedule never raises
CollisionError and never emits the skipped-events warning; the only possible
failure is a period error, and when the run start succeeds the cursor is 0. -/
theorem c10_empty_schedule (st : GenState) (t dt : ℚ) (st' : GenState) (e : Option Err)
    (w : Bool) (hreach : Reachable st) (hempty : st.spike_time = []) (hdt : 0 < dt)
    (hrun : before_runRun st t dt = (st', e, w)) :
    w = false ∧
    (e = none ∨ e = some .periodSmallerThanDt ∨ e = some .periodNotMultiple) ∧
    (e = none → st'.lastindex = 0) := by
  have hfields := cursorState_fields st t dt
  have hnocol : collisionFlag (cursorState st t dt).neuron_index
      (cursorState st t dt).spike_time dt = false := by
    rw [hfields.2.1, hfields.1, hempty]
    unfold collisionFlag
    rw [List.map_nil]
    exact hasCollision_nil_left _
  cases hp : periodCheck st.period dt with
  | some e2 =>
    rw [before_runRun_period_error hp] at hrun
    simp only [Prod.mk.injEq] at hrun
    obtain ⟨hst, he, hw⟩ := hrun
    refine ⟨hw.symm, ?_, ?_⟩
    · rcases periodCheck_error_cases hp with h2 | h2 <;> rw [← he, h2]
      · exact Or.inr (Or.inl rfl)
      · exact Or.inr (Or.inr rfl)
    · intro hne
      rw [← he] at hne
      cases hne
  | none =>
    rw [before_runRun_of_none hp] at hrun
    have hwf : (st.spikes_changed && !(pastIndices st.spike_time t dt).isEmpty) = false := by
      rw [hempty]
      unfold pastIndices
      simp
    have hlast : (cursorState st t dt).lastindex = 0 := by
      cases hd : st.spikes_changed with
      | true =>
        rw [cursorState_lastindex_dirty hd, hempty]
        rfl
      | false =>
        have hcs : cursorState st t dt = st := by
          unfold cursorState
          rw [hd]
          simp
        rw [hcs]
        exact reachable_empty_clean_cursor hreach hempty hd
    split_ifs at hrun with hcond hcol
    · rw [hnocol] at hcol
      cases hcol
    · simp only [Prod.mk.injEq] at hrun
      obtain ⟨hst, he, hw⟩ := hrun
      refine ⟨by rw [← hw, hwf], Or.inl he.symm, fun _ => ?_⟩
      rw [← hst]
      exact hlast
    · simp only [Prod.mk.injEq] at hrun
      obtain ⟨hst, he, hw⟩ := hrun
      refine ⟨by rw [← hw, hwf], Or.inl he.symm, fun _ => ?_⟩
      rw [← hst]
      exact hlast

/-- C10 witness: a freshly constructed empty generator at t = 0, dt = 1:
no warning, no error, cursor 0. -/
theorem c10_witness :
    (false : Bool) = false ∧
    ((none : Option Err) = none ∨ (none : Option Err) = some .periodSmallerThanDt ∨
      (none : Option Err) = some .periodNotMultiple) ∧
    ((none : Option Err) = none →
      ({ exampleState with previous_dt := some 1, spikes_changed := false } : GenState).lastindex
        = 0) :=
  c10_empty_schedule exampleState 0 1
    { exampleState with previous_dt := some 1, spikes_changed := false } none false
    (@Reachable.init 2 [] [] 100000 false exampleState (by decide)) rfl (by decide) (by decide)

end SpikeGen
